import Mathlib

/-!
Verification development for the `generate-gorm-models` code generator
(`src/main.go`). Strings are modelled as `List Char` (Go strings are
sequences of runes for the operations used here). Each Go helper used by
the generator is embedded as an executable Lean definition, and the
behavioural claims about the generator are settled as theorems below.
-/

/-- Convert a Lean string literal to the `List Char` representation used
throughout this development. -/
def str (s : String) : List Char := s.data

/-! ### Go standard-library string helpers used by `main.go` -/

/-- Embedding of the character-class test inside Go `strings.isSeparator`,
negated: a character is a word character when it is an ASCII digit, ASCII
letter, or underscore. Go resolves non-ASCII runes through Unicode
letter/digit tables; the identifiers of the generator are ASCII, and non-ASCII
runes are modelled as separators here. -/
def isWordChar (c : Char) : Bool :=
  (decide (48 ≤ c.toNat) && decide (c.toNat ≤ 57)) ||
  (decide (97 ≤ c.toNat) && decide (c.toNat ≤ 122)) ||
  (decide (65 ≤ c.toNat) && decide (c.toNat ≤ 90)) ||
  decide (c = '_')

/-- ASCII lowercase letter. -/
def isLowerAZ (c : Char) : Bool :=
  decide (97 ≤ c.toNat) && decide (c.toNat ≤ 122)

/-- ASCII digit. -/
def isDigit09 (c : Char) : Bool :=
  decide (48 ≤ c.toNat) && decide (c.toNat ≤ 57)

/-- Embedding of Go `unicode.ToTitle` on the characters the generator can
meet: each ASCII lowercase letter maps to its uppercase form (its code
point minus 32), every other ASCII character maps to itself. Non-ASCII
title-case mappings (which stay inside the Unicode letter classes and
never produce an underscore) are modelled as the identity. -/
def goToTitle (c : Char) : Char :=
  if isLowerAZ c then Char.ofNat (c.toNat - 32) else c

/-- Embedding of Go `strings.Title`: walk the rune sequence keeping the
previous rune; a rune that follows a separator (a non word character) is
title-cased, every other rune is kept. `prev` is the previous original
rune, exactly as in the Go closure. -/
def goTitleAux (prev : Char) : List Char → List Char
  | [] => []
  | c :: cs => (if isWordChar prev then c else goToTitle c) :: goTitleAux c cs

/-- Go `strings.Title s`: the walk starts with a space as previous rune,
so the first rune of the string is title-cased. -/
def goTitle (s : List Char) : List Char := goTitleAux ' ' s

/-- Embedding of Go `strings.Split(s, string(sep))` for a one-rune
separator: the empty string splits to one empty field, and every
occurrence of the separator closes the current field. -/
def splitOnCh (sep : Char) : List Char → List (List Char)
  | [] => [[]]
  | c :: cs =>
    if c = sep then [] :: splitOnCh sep cs
    else
      match splitOnCh sep cs with
      | [] => [[c]]
      | seg :: rest => (c :: seg) :: rest

/-- Embedding of `camelCase` from `src/main.go`: split the input on the
underscore, apply `strings.Title` to each part, and join the parts with
the empty separator. -/
def camelCase (s : List Char) : List Char :=
  ((splitOnCh '_' s).map goTitle).flatten

/-- Helper for `hasSub`: the first list is an initial run of the second. -/
def leadsWith : List Char → List Char → Bool
  | [], _ => true
  | _ :: _, [] => false
  | a :: as, b :: bs => a = b && leadsWith as bs

/-- Embedding of Go `strings.Contains(s, sub)`: some suffix of `s` starts
with `sub`; the empty pattern is contained in every string. -/
def hasSub : List Char → List Char → Bool
  | [], sub => sub.isEmpty
  | c :: cs, sub => leadsWith sub (c :: cs) || hasSub cs sub

/-- Embedding of Go `strings.Join(elems, ",")`. -/
def joinComma (l : List (List Char)) : List Char :=
  (str ",").intercalate l

/-! ### Data model of `src/main.go` -/

/-- The `Column` struct of `src/main.go`: generated field name, original
database column name, generated type name. The Go field `Type` keeps its
source name through the quoted identifier. -/
structure Column where
  Name : List Char
  GormName : List Char
  «Type» : List Char
deriving DecidableEq, Repr

/-- The `Table` struct of `src/main.go`. -/
structure Table where
  TableName : List Char
  DBTableName : List Char
  Columns : List Column
  ModelImports : List (List Char)
deriving DecidableEq, Repr

/-- One column descriptor as returned by the catalog query
`db.Migrator().ColumnTypes(tableName)`: the column name
(`columnType.Name()`) and the reported database type name
(`columnType.DatabaseTypeName()`). -/
structure ColumnDesc where
  name : List Char
  dbTypeName : List Char
deriving DecidableEq, Repr

/-- The type half of the `switch columnType.DatabaseTypeName()` statement
in `generateModel` (`src/main.go` lines 119-148): the value assigned to
`modelColumnType` for each case group, with the `default` arm assigning
`"string"`. The match is on the exact reported string. -/
def modelColumnType (t : List Char) : List Char :=
  if t = str "datetime" ∨ t = str "timestamp" ∨ t = str "date" ∨ t = str "time" then
    str "time.Time"
  else if t = str "tinyint" ∨ t = str "smallint" ∨ t = str "mediumint" ∨
      t = str "int" ∨ t = str "integer" ∨ t = str "bigint" then
    str "int"
  else if t = str "float" ∨ t = str "double" ∨ t = str "real" then
    str "float64"
  else if t = str "decimal" ∨ t = str "numeric" then
    str "string"
  else if t = str "char" ∨ t = str "varchar" ∨ t = str "tinytext" ∨
      t = str "text" ∨ t = str "mediumtext" ∨ t = str "longtext" then
    str "string"
  else if t = str "binary" ∨ t = str "varbinary" ∨ t = str "tinyblob" ∨
      t = str "blob" ∨ t = str "mediumblob" ∨ t = str "longblob" then
    str "[]byte"
  else if t = str "bit" then
    str "[]uint8"
  else if t = str "bool" ∨ t = str "boolean" then
    str "bool"
  else if t = str "json" then
    str "json.RawMessage"
  else if t = str "enum" ∨ t = str "set" then
    str "string"
  else
    str "string"

/-- The import half of the same `switch` statement: the `datetime` group
appends `"time"` and the `json` case appends `"encoding/json"` to
`modelImports`, each guarded by
`!strings.Contains(strings.Join(modelImports, ","), imp)`; all other case
groups leave the import list unchanged. -/
def importsAfterColumn (imp : List (List Char)) (t : List Char) : List (List Char) :=
  if t = str "datetime" ∨ t = str "timestamp" ∨ t = str "date" ∨ t = str "time" then
    if hasSub (joinComma imp) (str "time") then imp else imp ++ [str "time"]
  else if t = str "json" then
    if hasSub (joinComma imp) (str "encoding/json") then imp else imp ++ [str "encoding/json"]
  else
    imp

/-- The `for _, columnType := range columnTypes` loop of `generateModel`:
builds the column list and the import list left to right. Each column gets
`Name = camelCase(columnType.Name())`, `GormName = columnType.Name()` and
the mapped type. -/
def genLoop : List ColumnDesc → List Column → List (List Char) →
    List Column × List (List Char)
  | [], cols, imps => (cols, imps)
  | ct :: rest, cols, imps =>
    genLoop rest
      (cols ++ [{ Name := camelCase ct.name, GormName := ct.name,
                  «Type» := modelColumnType ct.dbTypeName }])
      (importsAfterColumn imps ct.dbTypeName)

/-- Modelled from the spec: `inflection.Singular` from the external
`github.com/jinzhu/inflection` package is not part of this repository.
The spec describes it as standard English pluralization inversion:
uncountable nouns unchanged, irregular plurals mapped through a word
table, `-ies` to `-y`, a trailing `s` stripped, anything else unchanged.
A small representative irregular/uncountable table is used. -/
def singular (s : List Char) : List Char :=
  if s = str "fish" ∨ s = str "sheep" ∨ s = str "series" ∨
      s = str "species" ∨ s = str "news" then s
  else if s = str "children" then str "child"
  else if s = str "people" then str "person"
  else if s = str "men" then str "man"
  else if leadsWith (str "ies").reverse s.reverse then
    s.take (s.length - 3) ++ str "y"
  else if leadsWith (str "s").reverse s.reverse then
    s.take (s.length - 1)
  else s

/-- The `Table` value built by `generateModel` for one table
(`src/main.go` lines 108-167), before the template is rendered. -/
def generateTable (tableName : List Char) (cts : List ColumnDesc) : Table :=
  let res := genLoop cts [] []
  { TableName := camelCase (singular tableName)
    DBTableName := tableName
    Columns := res.1
    ModelImports := res.2 }

/-! ### The fixed text template (`modelTemplate`, `src/main.go` lines 18-38)

The renderer below produces the exact text `text/template` emits for
`modelTemplate`: the `if` block appears only when `ModelImports` is
non-empty, the `range` bodies repeat per element, and the two left-trim
markers around the column `range` eat the newline before the action. -/

/-- One iteration of the import `range` body of `modelTemplate`. -/
def renderImport (i : List Char) : List Char :=
  str "\n\t\"" ++ i ++ str "\"\n"

/-- One iteration of the column `range` body of `modelTemplate` (with its
left-trim markers already applied). -/
def renderColumn (c : Column) : List Char :=
  str "\n    " ++ c.Name ++ str " " ++ c.«Type» ++
    str " `gorm:\"column:" ++ c.GormName ++ str "\"`"

/-- The full text produced by executing `modelTemplate` on a `Table`. -/
def renderModel (t : Table) : List Char :=
  str "package models\n\n" ++
  (if t.ModelImports.isEmpty then [] else
    str "\nimport (\n" ++ (t.ModelImports.map renderImport).flatten ++ str "\n)\n") ++
  str "    \n\n\ntype " ++ t.TableName ++ str " struct \x7b" ++
  (t.Columns.map renderColumn).flatten ++
  str "\n\x7d\n\nfunc (" ++ t.TableName ++
  str ") TableName() string \x7b\n    return \"" ++
  t.DBTableName ++ str "\"\n\x7d\n"

/-- What `generateModel` produces for one table: the destination file path
`destPath ++ "/" ++ table.TableName ++ ".go"` (from the `os.Create` call)
paired with the rendered file contents. -/
def generatedFile (destPath tableName : List Char) (cts : List ColumnDesc) :
    List Char × List Char :=
  let t := generateTable tableName cts
  (destPath ++ str "/" ++ t.TableName ++ str ".go", renderModel t)

/-! ### Configuration resolution and the control flow of `main` -/

/-- The command-line flags of `main` (all default to the empty string,
except `dest` whose default is `"."`). -/
structure Flags where
  dest : List Char
  envFile : List Char
  dbUser : List Char
  dbPassword : List Char
  dbHost : List Char
  dbPort : List Char
  dbName : List Char
  tables : List Char
deriving DecidableEq, Repr

/-- The process environment after the optional dotenv load: the values of
`DB_USER`, `DB_PASSWORD`, `DB_HOST`, `DB_PORT`, `DB_NAME` and `TABLES`
(an unset variable reads as the empty string via `os.Getenv`). -/
structure Env where
  dbUser : List Char
  dbPassword : List Char
  dbHost : List Char
  dbPort : List Char
  dbName : List Char
  tables : List Char
deriving DecidableEq, Repr

/-- The configuration after flag/environment substitution. -/
structure Resolved where
  dbUser : List Char
  dbPassword : List Char
  dbHost : List Char
  dbPort : List Char
  dbName : List Char
  tables : List Char
deriving DecidableEq, Repr

/-- One `if *flag == "" { *flag = os.Getenv(...) }` substitution
(`src/main.go` lines 73-90). -/
def resolveStr (flagVal envVal : List Char) : List Char :=
  if flagVal.isEmpty then envVal else flagVal

/-- The six flag/environment substitutions of `main`. -/
def resolveConfig (f : Flags) (e : Env) : Resolved :=
  { dbUser := resolveStr f.dbUser e.dbUser
    dbPassword := resolveStr f.dbPassword e.dbPassword
    dbHost := resolveStr f.dbHost e.dbHost
    dbPort := resolveStr f.dbPort e.dbPort
    dbName := resolveStr f.dbName e.dbName
    tables := resolveStr f.tables e.tables }

/-- The required-field check of `main` (`src/main.go` line 92):
`*dbUser == "" || *dbPassword == "" || *dbName == "" || *tables == ""`. -/
def requiredMissing (r : Resolved) : Bool :=
  r.dbUser.isEmpty || r.dbPassword.isEmpty || r.dbName.isEmpty || r.tables.isEmpty

/-- Observable events of one run of `main`, in program order. -/
inductive Event where
  | fatalConfig
  | connectAttempt
  | fatalConnect
  | generated (path : List Char) (contents : List Char)
deriving DecidableEq, Repr

/-- The control flow of `main` after flag parsing and the dotenv load,
as the sequence of observable events: the required-field check runs
first and a failure is fatal (`log.Fatal`); only then is the connection
opened (`gorm.Open`), whose failure is fatal; then each entry of
`strings.Split(*tables, ",")` is generated in order. The column catalog
returned by the database is abstracted as the `catalog` function. -/
def mainTrace (f : Flags) (e : Env) (connectOk : Bool)
    (catalog : List Char → List ColumnDesc) : List Event :=
  let r := resolveConfig f e
  if requiredMissing r then [Event.fatalConfig]
  else
    Event.connectAttempt ::
      (if connectOk then
        (splitOnCh ',' r.tables).map (fun tn =>
          Event.generated (generatedFile f.dest tn (catalog tn)).1
            (generatedFile f.dest tn (catalog tn)).2)
      else [Event.fatalConnect])

/-! ### The documented type-mapping table (from the spec, for claim C1) -/

/-- The 33 database type names listed in the case groups of the `switch`
(equivalently, the names in the type-mapping table of the spec). -/
def supportedNames : List (List Char) :=
  [str "datetime", str "timestamp", str "date", str "time",
   str "tinyint", str "smallint", str "mediumint", str "int",
   str "integer", str "bigint",
   str "float", str "double", str "real",
   str "decimal", str "numeric",
   str "char", str "varchar", str "tinytext", str "text",
   str "mediumtext", str "longtext",
   str "binary", str "varbinary", str "tinyblob", str "blob",
   str "mediumblob", str "longblob",
   str "bit", str "bool", str "boolean", str "json", str "enum", str "set"]

/-- The documented mapping: each supported database type name paired with
the generated type the table of the spec documents for it. -/
def docTable : List (List Char × List Char) :=
  [(str "datetime", str "time.Time"), (str "timestamp", str "time.Time"),
   (str "date", str "time.Time"), (str "time", str "time.Time"),
   (str "tinyint", str "int"), (str "smallint", str "int"),
   (str "mediumint", str "int"), (str "int", str "int"),
   (str "integer", str "int"), (str "bigint", str "int"),
   (str "float", str "float64"), (str "double", str "float64"),
   (str "real", str "float64"),
   (str "decimal", str "string"), (str "numeric", str "string"),
   (str "char", str "string"), (str "varchar", str "string"),
   (str "tinytext", str "string"), (str "text", str "string"),
   (str "mediumtext", str "string"), (str "longtext", str "string"),
   (str "binary", str "[]byte"), (str "varbinary", str "[]byte"),
   (str "tinyblob", str "[]byte"), (str "blob", str "[]byte"),
   (str "mediumblob", str "[]byte"), (str "longblob", str "[]byte"),
   (str "bit", str "[]uint8"), (str "bool", str "bool"),
   (str "boolean", str "bool"), (str "json", str "json.RawMessage"),
   (str "enum", str "string"), (str "set", str "string")]

/-- The catalog answer used in the end-to-end scenario of claim C4:
table users with columns (id int, email varchar, created_at datetime). -/
def usersCatalog : List ColumnDesc :=
  [{ name := str "id", dbTypeName := str "int" },
   { name := str "email", dbTypeName := str "varchar" },
   { name := str "created_at", dbTypeName := str "datetime" }]

/-- All import lists reachable by the `generateModel` loop. -/
def importStates : List (List (List Char)) :=
  [[], [str "time"], [str "encoding/json"],
   [str "time", str "encoding/json"], [str "encoding/json", str "time"]]

/-! ### Character classes and the shape of snake_case input (claim C2) -/

/-- One word of a snake_case identifier: empty, or a lowercase letter
followed by lowercase letters and digits. -/
def snakeWord : List Char → Bool
  | [] => true
  | c :: cs => isLowerAZ c && cs.all (fun d => isLowerAZ d || isDigit09 d)

/-- A snake_case identifier: every underscore-separated word is a
`snakeWord`. -/
def isSnake (s : List Char) : Bool :=
  (splitOnCh '_' s).all snakeWord

/-- The transform exactly as claim C2 words it: split on the underscore,
title-case only the first letter of each segment, concatenate with no
separator. -/
def titleFirst : List Char → List Char
  | [] => []
  | c :: cs => goToTitle c :: cs

/-- The claim-worded identifier transform, to be compared with the
source-derived `camelCase`. -/
def camelCaseSpec (s : List Char) : List Char :=
  ((splitOnCh '_' s).map titleFirst).flatten

/-- Helper: the 26 ASCII lowercase letters. -/
def lowerChars : List Char :=
  ['a', 'b', 'c', 'd', 'e', 'f', 'g', 'h', 'i', 'j', 'k', 'l', 'm',
   'n', 'o', 'p', 'q', 'r', 's', 't', 'u', 'v', 'w', 'x', 'y', 'z']

/-- C1 (counterexample): the claim says the mapper is case-insensitive,
so that the reported name INT maps to int like int does. In the code the
`switch` compares the reported string against the lowercase names
exactly, so INT falls through to the `default` arm and maps to string. -/
theorem C1_upper_INT_maps_to_string :
    modelColumnType (str "INT") = str "string" ∧
      ¬ modelColumnType (str "INT") = str "int" := by
  decide

/-- C1 (amended): the mapper matches the reported type name
case-sensitively: each of the lowercase supported names maps to its
documented generated type, and every other string — including uppercase
variants such as INT — maps to string. -/
theorem C1_type_mapping_case_sensitive :
    (∀ p ∈ docTable, modelColumnType p.1 = p.2) ∧
      ∀ t : List Char, t ∉ supportedNames → modelColumnType t = str "string" := by
  refine ⟨by decide, ?_⟩
  intro t ht
  unfold modelColumnType
  rw [if_neg (by rintro (rfl | rfl | rfl | rfl) <;> exact ht (by decide))]
  rw [if_neg (by rintro (rfl | rfl | rfl | rfl | rfl | rfl) <;> exact ht (by decide))]
  rw [if_neg (by rintro (rfl | rfl | rfl) <;> exact ht (by decide))]
  rw [if_neg (by rintro (rfl | rfl) <;> exact ht (by decide))]
  rw [if_neg (by rintro (rfl | rfl | rfl | rfl | rfl | rfl) <;> exact ht (by decide))]
  rw [if_neg (by rintro (rfl | rfl | rfl | rfl | rfl | rfl) <;> exact ht (by decide))]
  rw [if_neg (by rintro rfl; exact ht (by decide))]
  rw [if_neg (by rintro (rfl | rfl) <;> exact ht (by decide))]
  rw [if_neg (by rintro rfl; exact ht (by decide))]
  rw [if_neg (by rintro (rfl | rfl) <;> exact ht (by decide))]

/-- C1 (witness): the name uuid is not in the table and maps to string. -/
theorem C1_type_mapping_witness :
    modelColumnType (str "uuid") = str "string" :=
  C1_type_mapping_case_sensitive.2 (str "uuid") (by decide)


/-- C4: for table users with catalog columns (id int, email varchar,
created_at datetime) the generator builds a Table whose generated type
name is User, whose fields in order are Id int, Email string and
CreatedAt time.Time, whose import list is exactly [time], and whose
rendered accessor returns the literal string users (the template inserts
DBTableName verbatim into the TableName method body). -/
theorem C4_users_end_to_end :
    generateTable (str "users") usersCatalog =
      { TableName := str "User"
        DBTableName := str "users"
        Columns :=
          [{ Name := str "Id", GormName := str "id", «Type» := str "int" },
           { Name := str "Email", GormName := str "email", «Type» := str "string" },
           { Name := str "CreatedAt", GormName := str "created_at",
             «Type» := str "time.Time" }]
        ModelImports := [str "time"] } ∧
      hasSub (renderModel (generateTable (str "users") usersCatalog))
        (str "return \"users\"") = true := by
  decide

/-- C9: generation is deterministic — the rendered file contents are a
function of the table name and the ordered column descriptors alone; two
runs with the same table name and descriptors produce identical text even
if the destination path differs (the destination only selects the file
path, never the contents). -/
theorem C9_generation_deterministic :
    ∀ (dest dest' tableName : List Char) (cts : List ColumnDesc),
      (generatedFile dest tableName cts).2 = (generatedFile dest' tableName cts).2 :=
  fun _ _ _ _ => rfl

/-- Helper: the required-field check fires exactly when one of the four
substituted required values is empty. -/
theorem requiredMissing_resolveConfig_iff (f : Flags) (e : Env) :
    requiredMissing (resolveConfig f e) = true ↔
      (resolveStr f.dbUser e.dbUser = [] ∨ resolveStr f.dbPassword e.dbPassword = [] ∨
       resolveStr f.dbName e.dbName = [] ∨ resolveStr f.tables e.tables = []) := by
  simp only [requiredMissing, resolveConfig, Bool.or_eq_true, List.isEmpty_iff]
  tauto

/-- C6: after flag/environment substitution, the run aborts at the
required-field validation step exactly when at least one of user,
password, database name or tables is empty; the right-hand side mentions
neither host nor port, so empty host or port values never cause the
validation failure. -/
theorem C6_fatal_validation_iff_required_empty :
    ∀ (f : Flags) (e : Env) (connectOk : Bool)
      (catalog : List Char → List ColumnDesc),
      Event.fatalConfig ∈ mainTrace f e connectOk catalog ↔
        (resolveStr f.dbUser e.dbUser = [] ∨ resolveStr f.dbPassword e.dbPassword = [] ∨
         resolveStr f.dbName e.dbName = [] ∨ resolveStr f.tables e.tables = []) := by
  intro f e connectOk catalog
  rw [← requiredMissing_resolveConfig_iff]
  constructor
  · intro hmem
    by_cases h : requiredMissing (resolveConfig f e)
    · exact h
    · exfalso
      cases connectOk <;> simp [mainTrace, h] at hmem
  · intro h
    simp [mainTrace, h]

/-- C6 (witness): with an empty tables value everywhere, the validation
failure event appears in the trace. -/
theorem C6_fatal_validation_witness :
    Event.fatalConfig ∈
      mainTrace
        { dest := str ".", envFile := [], dbUser := str "u", dbPassword := str "p",
          dbHost := [], dbPort := [], dbName := str "d", tables := [] }
        { dbUser := [], dbPassword := [], dbHost := [], dbPort := [],
          dbName := [], tables := [] }
        true (fun _ => []) :=
  (C6_fatal_validation_iff_required_empty _ _ true (fun _ => [])).mpr
    (by decide)

/-- C7: whenever a required configuration field is missing after
substitution, the run terminates at the validation step and no
connection-open event ever appears in the trace: validation strictly
precedes the connection attempt. -/
theorem C7_validation_precedes_connection :
    ∀ (f : Flags) (e : Env) (connectOk : Bool)
      (catalog : List Char → List ColumnDesc),
      requiredMissing (resolveConfig f e) = true →
        Event.connectAttempt ∉ mainTrace f e connectOk catalog := by
  intro f e connectOk catalog h
  simp [mainTrace, h]

/-- C7 (witness): with every flag and environment value empty (so tables
is missing) no connection attempt appears in the trace. -/
theorem C7_validation_witness :
    Event.connectAttempt ∉
      mainTrace
        { dest := str ".", envFile := [], dbUser := [], dbPassword := [],
          dbHost := [], dbPort := [], dbName := [], tables := [] }
        { dbUser := [], dbPassword := [], dbHost := [], dbPort := [],
          dbName := [], tables := [] }
        true (fun _ => []) :=
  C7_validation_precedes_connection _ _ _ _ (by decide)

/-! ### The import list invariant (claims C3 and C8) -/


/-- Helper: one loop step either keeps the import list or appends one of
the two imports under its containment guard. -/
theorem importsAfterColumn_cases (imp : List (List Char)) (t : List Char) :
    importsAfterColumn imp t = imp ∨
      importsAfterColumn imp t =
        (if hasSub (joinComma imp) (str "time") then imp else imp ++ [str "time"]) ∨
      importsAfterColumn imp t =
        (if hasSub (joinComma imp) (str "encoding/json") then imp
         else imp ++ [str "encoding/json"]) := by
  unfold importsAfterColumn
  split_ifs <;> tauto

/-- Helper: the loop step stays inside the reachable import states. -/
theorem importsAfterColumn_state (imp : List (List Char)) (t : List Char)
    (h : imp ∈ importStates) : importsAfterColumn imp t ∈ importStates := by
  have hc := importsAfterColumn_cases imp t
  simp only [importStates, List.mem_cons, List.not_mem_nil, or_false] at h
  rcases h with rfl | rfl | rfl | rfl | rfl <;>
    rcases hc with he | he | he <;> rw [he] <;> decide

/-- Helper: the import list built by the whole loop is a reachable state. -/
theorem genLoop_imports_state :
    ∀ (cts : List ColumnDesc) (cols : List Column) (imps : List (List Char)),
      imps ∈ importStates → (genLoop cts cols imps).2 ∈ importStates := by
  intro cts
  induction cts with
  | nil => intro cols imps h; exact h
  | cons ct rest ih =>
    intro cols imps h
    exact ih _ _ (importsAfterColumn_state _ _ h)

/-- C3: each required import is added to the import list of the table at most
once no matter how many columns require it, and a table with three json
columns followed by two datetime columns has exactly the two entries
encoding/json and time. -/
theorem C3_imports_deduplicated :
    (∀ cts : List ColumnDesc,
      (genLoop cts [] []).2.count (str "time") ≤ 1 ∧
        (genLoop cts [] []).2.count (str "encoding/json") ≤ 1) ∧
      (generateTable (str "things")
        [{ name := str "a", dbTypeName := str "json" },
         { name := str "b", dbTypeName := str "json" },
         { name := str "c", dbTypeName := str "json" },
         { name := str "d", dbTypeName := str "datetime" },
         { name := str "e", dbTypeName := str "datetime" }]).ModelImports =
        [str "encoding/json", str "time"] := by
  constructor
  · intro cts
    have h := genLoop_imports_state cts [] [] (by decide)
    simp only [importStates, List.mem_cons, List.not_mem_nil, or_false] at h
    rcases h with he | he | he | he | he <;> rw [he] <;> exact ⟨by decide, by decide⟩
  · decide

/-- C8: for every sequence of column descriptors the built import list
only ever holds the strings time and encoding/json, each at most once. -/
theorem C8_imports_subset_invariant :
    ∀ cts : List ColumnDesc,
      (∀ i ∈ (genLoop cts [] []).2, i = str "time" ∨ i = str "encoding/json") ∧
        (genLoop cts [] []).2.count (str "time") ≤ 1 ∧
        (genLoop cts [] []).2.count (str "encoding/json") ≤ 1 := by
  intro cts
  have h := genLoop_imports_state cts [] [] (by decide)
  simp only [importStates, List.mem_cons, List.not_mem_nil, or_false] at h
  rcases h with he | he | he | he | he <;> rw [he] <;>
    exact ⟨by decide, by decide, by decide⟩


/-- C8 (witness): for a one-column datetime table, the import string time
is in the built import list and the invariant classifies it. -/
theorem C8_imports_subset_witness :
    str "time" = str "time" ∨ str "time" = str "encoding/json" :=
  (C8_imports_subset_invariant
      [{ name := str "a", dbTypeName := str "datetime" }]).1
    (str "time") (by decide)

/-! ### Facts about `goToTitle` -/

/-- Helper: a character that is not an ASCII lowercase letter is left
unchanged by `goToTitle`. -/
theorem goToTitle_of_not_lower (c : Char) (h : isLowerAZ c = false) :
    goToTitle c = c := by
  simp [goToTitle, h]


/-- Helper: every ASCII lowercase letter is one of the 26 characters. -/
theorem lower_enum (c : Char) (h : isLowerAZ c = true) : c ∈ lowerChars := by
  simp only [isLowerAZ, Bool.and_eq_true, decide_eq_true_eq] at h
  have hc := Char.ofNat_toNat c
  have he : c.toNat = 97 ∨ c.toNat = 98 ∨ c.toNat = 99 ∨ c.toNat = 100 ∨
      c.toNat = 101 ∨ c.toNat = 102 ∨ c.toNat = 103 ∨ c.toNat = 104 ∨
      c.toNat = 105 ∨ c.toNat = 106 ∨ c.toNat = 107 ∨ c.toNat = 108 ∨
      c.toNat = 109 ∨ c.toNat = 110 ∨ c.toNat = 111 ∨ c.toNat = 112 ∨
      c.toNat = 113 ∨ c.toNat = 114 ∨ c.toNat = 115 ∨ c.toNat = 116 ∨
      c.toNat = 117 ∨ c.toNat = 118 ∨ c.toNat = 119 ∨ c.toNat = 120 ∨
      c.toNat = 121 ∨ c.toNat = 122 := by omega
  rcases he with h | h | h | h | h | h | h | h | h | h | h | h | h |
    h | h | h | h | h | h | h | h | h | h | h | h | h <;>
    (rw [h] at hc; rw [← hc]; decide)

/-- Helper: `goToTitle` either fixes its argument, or produces an ASCII
uppercase letter, which is a word character, not lowercase and not an
underscore. -/
theorem goToTitle_cases (c : Char) :
    goToTitle c = c ∨
      (isLowerAZ (goToTitle c) = false ∧ isWordChar (goToTitle c) = true ∧
        goToTitle c ≠ '_') := by
  by_cases hl : isLowerAZ c = true
  · have hm := lower_enum c hl
    fin_cases hm <;> (right; decide)
  · left
    exact goToTitle_of_not_lower c (by revert hl; cases isLowerAZ c <;> simp)

/-- Helper: `goToTitle` is idempotent. -/
theorem goToTitle_idem (c : Char) : goToTitle (goToTitle c) = goToTitle c := by
  rcases goToTitle_cases c with h | ⟨h1, _, _⟩
  · simp [h]
  · exact goToTitle_of_not_lower _ h1

/-- Helper: `goToTitle` preserves word characters. -/
theorem isWordChar_goToTitle (c : Char) (h : isWordChar c = true) :
    isWordChar (goToTitle c) = true := by
  rcases goToTitle_cases c with he | ⟨_, h2, _⟩
  · rw [he]; exact h
  · exact h2

/-- Helper: `goToTitle` never produces an underscore from a
non-underscore. -/
theorem goToTitle_ne_underscore (c : Char) (h : c ≠ '_') :
    goToTitle c ≠ '_' := by
  rcases goToTitle_cases c with he | ⟨_, _, h3⟩
  · rw [he]; exact h
  · exact h3

/-- Helper: lowercase letters are word characters. -/
theorem isWordChar_of_lower (c : Char) (h : isLowerAZ c = true) :
    isWordChar c = true := by
  simp only [isLowerAZ, Bool.and_eq_true, decide_eq_true_eq] at h
  simp only [isWordChar, Bool.or_eq_true, Bool.and_eq_true, decide_eq_true_eq]
  tauto

/-- Helper: digits are word characters. -/
theorem isWordChar_of_digit (c : Char) (h : isDigit09 c = true) :
    isWordChar c = true := by
  simp only [isDigit09, Bool.and_eq_true, decide_eq_true_eq] at h
  simp only [isWordChar, Bool.or_eq_true, Bool.and_eq_true, decide_eq_true_eq]
  tauto

/-! ### Facts about `splitOnCh` -/

/-- Helper: a split never returns the empty list of fields. -/
theorem splitOnCh_ne_nil (sep : Char) : ∀ s : List Char, splitOnCh sep s ≠ []
  | [] => by simp [splitOnCh]
  | c :: cs => by
    unfold splitOnCh
    split_ifs
    · exact List.cons_ne_nil _ _
    · cases h : splitOnCh sep cs <;> exact List.cons_ne_nil _ _

/-- Helper: every character of every field of a split is a character of
the input and is not the separator. -/
theorem splitOnCh_mem_chars (sep : Char) :
    ∀ (s seg : List Char), seg ∈ splitOnCh sep s → ∀ c ∈ seg, c ∈ s ∧ c ≠ sep := by
  intro s
  induction s with
  | nil =>
    intro seg hseg c hc
    simp [splitOnCh] at hseg
    subst hseg
    simp at hc
  | cons a cs ih =>
    intro seg hseg c hc
    unfold splitOnCh at hseg
    by_cases ha : a = sep
    · rw [if_pos ha] at hseg
      rcases List.mem_cons.mp hseg with rfl | hseg'
      · simp at hc
      · obtain ⟨hin, hne⟩ := ih seg hseg' c hc
        exact ⟨List.mem_cons_of_mem _ hin, hne⟩
    · rw [if_neg ha] at hseg
      obtain ⟨seg0, rest, hsplit⟩ :
          ∃ seg0 rest, splitOnCh sep cs = seg0 :: rest := by
        cases h : splitOnCh sep cs with
        | nil => exact absurd h (splitOnCh_ne_nil sep cs)
        | cons x xs => exact ⟨x, xs, rfl⟩
      rw [hsplit] at hseg
      rcases List.mem_cons.mp hseg with rfl | hseg'
      · rcases List.mem_cons.mp hc with rfl | hc'
        · exact ⟨List.mem_cons_self _ _, ha⟩
        · obtain ⟨hin, hne⟩ :=
            ih seg0 (hsplit ▸ List.mem_cons_self _ _) c hc'
          exact ⟨List.mem_cons_of_mem _ hin, hne⟩
      · obtain ⟨hin, hne⟩ :=
          ih seg (hsplit ▸ List.mem_cons_of_mem _ hseg') c hc
        exact ⟨List.mem_cons_of_mem _ hin, hne⟩

/-- Helper: a string free of the separator splits to the single field
holding the whole string. -/
theorem splitOnCh_eq_single (sep : Char) :
    ∀ s : List Char, (∀ c ∈ s, c ≠ sep) → splitOnCh sep s = [s] := by
  intro s
  induction s with
  | nil => intro _; rfl
  | cons a cs ih =>
    intro h
    unfold splitOnCh
    rw [if_neg (h a (List.mem_cons_self _ _))]
    rw [ih (fun d hd => h d (List.mem_cons_of_mem _ hd))]

/-- Helper: a non-separator character of the input appears in some field
of the split. -/
theorem splitOnCh_mem_of_mem (sep : Char) :
    ∀ (s : List Char) (c : Char), c ∈ s → c ≠ sep →
      ∃ seg ∈ splitOnCh sep s, c ∈ seg := by
  intro s
  induction s with
  | nil => intro c hc; simp at hc
  | cons a cs ih =>
    intro c hc hne
    unfold splitOnCh
    by_cases ha : a = sep
    · rw [if_pos ha]
      rcases List.mem_cons.mp hc with rfl | hc'
      · exact absurd ha hne
      · obtain ⟨seg, hseg, hcseg⟩ := ih c hc' hne
        exact ⟨seg, List.mem_cons_of_mem _ hseg, hcseg⟩
    · rw [if_neg ha]
      obtain ⟨seg0, rest, hsplit⟩ :
          ∃ seg0 rest, splitOnCh sep cs = seg0 :: rest := by
        cases h : splitOnCh sep cs with
        | nil => exact absurd h (splitOnCh_ne_nil sep cs)
        | cons x xs => exact ⟨x, xs, rfl⟩
      rw [hsplit]
      rcases List.mem_cons.mp hc with rfl | hc'
      · exact ⟨c :: seg0, List.mem_cons_self _ _, List.mem_cons_self _ _⟩
      · obtain ⟨seg, hseg, hcseg⟩ := ih c hc' hne
        rw [hsplit] at hseg
        rcases List.mem_cons.mp hseg with rfl | hseg'
        · exact ⟨a :: seg, List.mem_cons_self _ _, List.mem_cons_of_mem _ hcseg⟩
        · exact ⟨seg, List.mem_cons_of_mem _ hseg', hcseg⟩

/-! ### Facts about `goTitleAux` -/

/-- Helper: after a word character, a run of word characters is copied
unchanged. -/
theorem goTitleAux_of_word (prev : Char) (t : List Char)
    (hprev : isWordChar prev = true) (ht : ∀ c ∈ t, isWordChar c = true) :
    goTitleAux prev t = t := by
  induction t generalizing prev with
  | nil => rfl
  | cons c cs ih =>
    unfold goTitleAux
    rw [if_pos hprev]
    rw [ih c (ht c (List.mem_cons_self _ _))
      (fun d hd => ht d (List.mem_cons_of_mem _ hd))]

/-- Helper: `strings.Title` keeps the length. -/
theorem goTitleAux_length (t : List Char) :
    ∀ prev : Char, (goTitleAux prev t).length = t.length := by
  induction t with
  | nil => intro _; rfl
  | cons c cs ih =>
    intro prev
    unfold goTitleAux
    simp [ih c]

/-- Helper: every character produced by `strings.Title` is an input
character or its title-cased form. -/
theorem goTitleAux_mem (t : List Char) :
    ∀ (prev : Char) (x : Char), x ∈ goTitleAux prev t →
      ∃ c ∈ t, x = c ∨ x = goToTitle c := by
  induction t with
  | nil => intro prev x hx; simp [goTitleAux] at hx
  | cons c cs ih =>
    intro prev x hx
    unfold goTitleAux at hx
    rcases List.mem_cons.mp hx with hx0 | hx'
    · refine ⟨c, List.mem_cons_self _ _, ?_⟩
      by_cases hp : isWordChar prev = true
      · rw [if_pos hp] at hx0; exact Or.inl hx0
      · rw [if_neg hp] at hx0; exact Or.inr hx0
    · obtain ⟨d, hd, hor⟩ := ih c x hx'
      exact ⟨d, List.mem_cons_of_mem _ hd, hor⟩

/-! ### Facts about `camelCase` (claims C2, C5, C10) -/

/-- Helper: every character of `camelCase s` comes from a field of the
split of `s`, either unchanged or title-cased. -/
theorem camelCase_mem (s : List Char) (x : Char) (hx : x ∈ camelCase s) :
    ∃ seg ∈ splitOnCh '_' s, ∃ c ∈ seg, x = c ∨ x = goToTitle c := by
  unfold camelCase at hx
  rw [List.mem_flatten] at hx
  obtain ⟨l, hl, hxl⟩ := hx
  rw [List.mem_map] at hl
  obtain ⟨seg, hseg, rfl⟩ := hl
  obtain ⟨c, hc, hor⟩ := goTitleAux_mem seg ' ' x hxl
  exact ⟨seg, hseg, c, hc, hor⟩

/-- Helper: no character of `camelCase s` is an underscore: the split
removes every underscore and title-casing never creates one. -/
theorem camelCase_no_underscore (s : List Char) (x : Char)
    (hx : x ∈ camelCase s) : x ≠ '_' := by
  obtain ⟨seg, hseg, c, hc, hor⟩ := camelCase_mem s x hx
  have hcs := splitOnCh_mem_chars '_' s seg hseg c hc
  rcases hor with rfl | rfl
  · exact hcs.2
  · exact goToTitle_ne_underscore c hcs.2

/-- C10: for every input string the identifier transform produces an
underscore-free result, so every generated field and type name is
underscore-free. -/
theorem C10_no_underscore_in_output : ∀ s : List Char, '_' ∉ camelCase s :=
  fun s h => camelCase_no_underscore s '_' h rfl

/-- C10 (witness): the transform of user_id holds no underscore. -/
theorem C10_no_underscore_witness : '_' ∉ camelCase (str "user_id") :=
  C10_no_underscore_in_output (str "user_id")

/-- Helper: an input with a non-underscore character has a non-empty
`camelCase` image. -/
theorem camelCase_ne_nil (t : List Char) (c : Char) (hc : c ∈ t)
    (hne : c ≠ '_') : camelCase t ≠ [] := by
  obtain ⟨seg, hseg, hcseg⟩ := splitOnCh_mem_of_mem '_' t c hc hne
  intro h
  unfold camelCase at h
  have hnil : goTitle seg = [] := by
    have hmem : goTitle seg ∈ (splitOnCh '_' t).map goTitle :=
      List.mem_map_of_mem _ hseg
    exact List.flatten_eq_nil_iff.mp h _ hmem
  have hlen := goTitleAux_length seg ' '
  rw [goTitle] at hnil
  rw [hnil] at hlen
  cases seg with
  | nil => simp at hcseg
  | cons a as => simp at hlen

/-- C5 (counterexample): the claim says a non-empty table name always
yields a non-empty generated type name. The table name s is non-empty,
its singular form strips the trailing s leaving the empty string, and the
identifier transform of the empty string is empty. -/
theorem C5_singular_s_counterexample :
    str "s" ≠ [] ∧ camelCase (singular (str "s")) = [] := by decide

/-- C5 (amended): for every table name whose singularized form still
holds at least one non-underscore character, singularization followed by
the identifier transform produces a non-empty generated type name. -/
theorem C5_type_name_nonempty (tableName : List Char)
    (h : ∃ c ∈ singular tableName, c ≠ '_') :
    camelCase (singular tableName) ≠ [] := by
  obtain ⟨c, hc, hne⟩ := h
  exact camelCase_ne_nil _ c hc hne

/-- C5 (witness): the table name users singularizes to user, which has a
non-underscore character, and its generated type name is non-empty. -/
theorem C5_type_name_witness :
    (∃ c ∈ singular (str "users"), c ≠ '_') ∧
      camelCase (singular (str "users")) ≠ [] :=
  ⟨by decide, C5_type_name_nonempty (str "users") (by decide)⟩

/-! ### The identifier transform on snake_case input (claim C2) -/

/-- Helper: on a snake word, `strings.Title` title-cases exactly the
first character: the remaining characters follow a word character and are
copied. -/
theorem goTitle_snakeWord (seg : List Char) (h : snakeWord seg = true) :
    goTitle seg = titleFirst seg := by
  cases seg with
  | nil => rfl
  | cons c cs =>
    unfold snakeWord at h
    rw [Bool.and_eq_true] at h
    obtain ⟨hc, hcs⟩ := h
    simp only [List.all_eq_true] at hcs
    unfold goTitle goTitleAux titleFirst
    rw [if_neg (by decide : ¬ isWordChar ' ' = true)]
    congr 1
    apply goTitleAux_of_word c cs (isWordChar_of_lower c hc)
    intro d hd
    have hd2 := hcs d hd
    rw [Bool.or_eq_true] at hd2
    rcases hd2 with h1 | h1
    · exact isWordChar_of_lower d h1
    · exact isWordChar_of_digit d h1

/-- Helper: every character of the transform of a snake_case identifier
is a word character. -/
theorem camelCase_chars_word (s : List Char) (h : isSnake s = true) :
    ∀ x ∈ camelCase s, isWordChar x = true := by
  intro x hx
  obtain ⟨seg, hseg, c, hc, hor⟩ := camelCase_mem s x hx
  unfold isSnake at h
  simp only [List.all_eq_true] at h
  have hw := h seg hseg
  have hcld : (isLowerAZ c || isDigit09 c) = true := by
    cases seg with
    | nil => simp at hc
    | cons a as =>
      unfold snakeWord at hw
      rw [Bool.and_eq_true] at hw
      obtain ⟨ha, has⟩ := hw
      simp only [List.all_eq_true] at has
      rcases List.mem_cons.mp hc with rfl | hc'
      · simp [ha]
      · exact has c hc'
  have hcw : isWordChar c = true := by
    rw [Bool.or_eq_true] at hcld
    rcases hcld with h1 | h1
    · exact isWordChar_of_lower c h1
    · exact isWordChar_of_digit c h1
  rcases hor with rfl | rfl
  · exact hcw
  · exact isWordChar_goToTitle c hcw

/-- Helper: a concatenation of blocks whose heads are `goToTitle`-fixed
has a `goToTitle`-fixed head. -/
theorem flatten_head_fixed (ls : List (List Char))
    (h : ∀ l ∈ ls, ∀ c cs, l = c :: cs → goToTitle c = c) :
    ∀ c cs, ls.flatten = c :: cs → goToTitle c = c := by
  induction ls with
  | nil => intro c cs hc; simp at hc
  | cons l ls' ih =>
    intro c cs hc
    cases l with
    | nil =>
      simp only [List.flatten_cons, List.nil_append] at hc
      exact ih (fun l' hl' => h l' (List.mem_cons_of_mem _ hl')) c cs hc
    | cons a as =>
      simp only [List.flatten_cons, List.cons_append] at hc
      injection hc with h1 _
      rw [← h1]
      exact h (a :: as) (List.mem_cons_self _ _) a (as) rfl

/-- Helper: the head of a `strings.Title` block is `goToTitle`-fixed. -/
theorem goTitle_head_fixed (seg : List Char) :
    ∀ c cs, goTitle seg = c :: cs → goToTitle c = c := by
  cases seg with
  | nil => intro c cs h; simp [goTitle, goTitleAux] at h
  | cons a as =>
    intro c cs h
    unfold goTitle goTitleAux at h
    rw [if_neg (by decide : ¬ isWordChar ' ' = true)] at h
    injection h with h1 _
    rw [← h1]
    exact goToTitle_idem a

/-- Helper: the head of the transform of any string is `goToTitle`-fixed. -/
theorem camelCase_head_fixed (s : List Char) :
    ∀ c cs, camelCase s = c :: cs → goToTitle c = c := by
  unfold camelCase
  apply flatten_head_fixed
  intro l hl c cs hlc
  rw [List.mem_map] at hl
  obtain ⟨seg, _, rfl⟩ := hl
  exact goTitle_head_fixed seg c cs hlc

/-- Helper: `strings.Title` fixes a string of word characters whose head
is already title-cased. -/
theorem goTitle_fix (t : List Char) (hw : ∀ c ∈ t, isWordChar c = true)
    (hh : ∀ c cs, t = c :: cs → goToTitle c = c) : goTitle t = t := by
  cases t with
  | nil => rfl
  | cons a as =>
    unfold goTitle goTitleAux
    rw [if_neg (by decide : ¬ isWordChar ' ' = true)]
    rw [hh a as rfl]
    rw [goTitleAux_of_word a as (hw a (List.mem_cons_self _ _))
      (fun d hd => hw d (List.mem_cons_of_mem _ hd))]

/-- Helper: on an underscore-free string the transform is exactly
`strings.Title`. -/
theorem camelCase_of_no_underscore (t : List Char)
    (h : ∀ c ∈ t, c ≠ '_') : camelCase t = goTitle t := by
  unfold camelCase
  rw [splitOnCh_eq_single '_' t h]
  simp

/-- Helper: the transform agrees with the claim-worded transform on
snake_case identifiers. -/
theorem camelCase_eq_spec_of_snake (s : List Char) (h : isSnake s = true) :
    camelCase s = camelCaseSpec s := by
  unfold isSnake at h
  simp only [List.all_eq_true] at h
  unfold camelCase camelCaseSpec
  congr 1
  apply List.map_congr_left
  intro seg hseg
  exact goTitle_snakeWord seg (h seg hseg)

/-- Helper: the transform is idempotent on the transform of any
snake_case identifier. -/
theorem camelCase_idem_of_snake (s : List Char) (h : isSnake s = true) :
    camelCase (camelCase s) = camelCase s := by
  rw [camelCase_of_no_underscore _ (fun c hc => camelCase_no_underscore s c hc)]
  exact goTitle_fix _ (camelCase_chars_word s h) (camelCase_head_fixed s)

/-- C2: the identifier transform splits on the underscore, title-cases
the first letter of each segment and concatenates with no separator (so
order_item_id maps to OrderItemId and user_id to UserId), and applying
the transform again to a result of a first application returns the same
string, for every snake_case identifier (underscore-separated words, each
empty or a lowercase letter followed by lowercase letters and digits). -/
theorem C2_camelCase_spec_idempotent :
    (camelCase (str "order_item_id") = str "OrderItemId" ∧
      camelCase (str "user_id") = str "UserId") ∧
      ∀ s : List Char, isSnake s = true →
        camelCase s = camelCaseSpec s ∧ camelCase (camelCase s) = camelCase s := by
  refine ⟨⟨by decide, by decide⟩, ?_⟩
  intro s h
  exact ⟨camelCase_eq_spec_of_snake s h, camelCase_idem_of_snake s h⟩

/-- C2 (witness): order_item_id is snake_case, and the transform is
idempotent on it while matching the claim-worded transform. -/
theorem C2_camelCase_witness :
    isSnake (str "order_item_id") = true ∧
      camelCase (str "order_item_id") = camelCaseSpec (str "order_item_id") ∧
      camelCase (camelCase (str "order_item_id")) = camelCase (str "order_item_id") :=
  ⟨by decide,
    (C2_camelCase_spec_idempotent.2 (str "order_item_id") (by decide)).1,
    (C2_camelCase_spec_idempotent.2 (str "order_item_id") (by decide)).2⟩
